import Mathlib

/-!
Verification of the token-indexer core: subscription management
(`src/src/services/contract-event-watcher.ts`, with the later revision of the
same service that is embedded after the SQL preamble of
`src/prisma/migrations/20250304024821_add_revalidation_metrics/migration.sql`),
log decoding, and the reconciliation engine
(`src/src/services/contract.ts`, second revision, lines 859-1685).

The embedding is shallow: the in-memory subscription state becomes explicit
association lists, the store becomes an explicit list of rows threaded through
the operations, asynchronous provider reads become boolean/option oracles, and
thrown exceptions become `Except`.
-/

namespace TokenIndexer

/-! ## Subscription registry (ContractEventWatcherService)

State model: per (chain, event kind) the set of watched contract addresses and
the active subscription.  A JS `Set` preserves insertion order and holds no
duplicates, so `addresses` is a duplicate-free list extended at the tail.
The `unwatch` handle of the source is modelled as `active : Option (List Address)`
recording, when a subscription is live, the address list that was passed to
`client.watchEvent` when it was established (the provider filter is the whole
list captured at setup time). -/

/-- Contract addresses are plain strings in the source (`address as Address`). -/
abbrev Address := String

/-- The five event kinds of the source's `EventType` union. -/
inductive EventType
  | erc20Transfer
  | erc721Transfer
  | erc1155TransferSingle
  | erc1155TransferBatch
  | erc1155URI
deriving DecidableEq, Repr

/-- Token standards supported by the service (source enum `TokenType`). -/
inductive TokenType
  | ERC20
  | ERC721
  | ERC1155
deriving DecidableEq, Repr

/-- One entry of `eventWatchers`: the address set plus the optional live
subscription, recorded as the address list the subscription covers. -/
structure WatcherEntry where
  addresses : List Address
  active : Option (List Address)
deriving DecidableEq, Repr

/-- The per-chain `eventWatchers` object: an association list keyed by event
kind, in insertion order (JS object key order). -/
abbrev EventWatchers := List (EventType × WatcherEntry)

/-- Lookup of `eventWatchers[eventType]`. -/
def lookupEW : EventWatchers → EventType → Option WatcherEntry
  | [], _ => none
  | (et', e') :: rest, et => if et' = et then some e' else lookupEW rest et

/-- Assignment `eventWatchers[eventType] = entry`: replace in place if the key
exists, append otherwise (JS object semantics). -/
def setEW : EventWatchers → EventType → WatcherEntry → EventWatchers
  | [], et, e => [(et, e)]
  | (et', e') :: rest, et, e =>
      if et' = et then (et, e) :: rest else (et', e') :: setEW rest et e

/-- `Set.add`: append the address unless already present. -/
def addAddress (l : List Address) (a : Address) : List Address :=
  if a ∈ l then l else l ++ [a]

/-- `setupEventWatcher(chainId, eventType)` from the source: read the current
address set; if empty, return without subscribing; otherwise call
`client.watchEvent` with `Array.from(addresses)` and store the unwatch handle.
Identical in both revisions of the service. -/
def setupEventWatcher (w : EventWatchers) (et : EventType) : EventWatchers :=
  match lookupEW w et with
  | none => w
  | some e => if e.addresses = [] then w else setEW w et { e with active := some e.addresses }

/-- `addContractToEventWatcher(chainId, eventType, address)` from the source:
initialise the entry if missing, add the address to the set, and then — only
when no unwatch handle is stored — call `setupEventWatcher`.  When a live
subscription already exists the function returns without touching it
(source comment: "If we already have an active watcher, we don't need to
create a new one").  Identical in both revisions of the service. -/
def addContractToEventWatcher (w : EventWatchers) (et : EventType) (a : Address) :
    EventWatchers :=
  let e := (lookupEW w et).getD ⟨[], none⟩
  let e1 : WatcherEntry := { e with addresses := addAddress e.addresses a }
  let w1 := setEW w et e1
  if e1.active.isSome then w1 else setupEventWatcher w1 et

/-- The event kinds registered by `watchContract` for each token type. -/
def eventTypesFor : TokenType → List EventType
  | .ERC20 => [.erc20Transfer]
  | .ERC721 => [.erc721Transfer]
  | .ERC1155 => [.erc1155TransferSingle, .erc1155TransferBatch, .erc1155URI]

/-- The address-set manipulation performed by `watchContract` on a chain whose
client exists: for each relevant event kind, `addContractToEventWatcher` with
the address exactly as supplied (`validatedParams.address as Address`, no
normalisation). -/
def watchContract (t : TokenType) (a : Address) (w : EventWatchers) : EventWatchers :=
  (eventTypesFor t).foldl (fun w' et => addContractToEventWatcher w' et a) w

/-- Model of JavaScript `String.prototype.toLowerCase` for the ASCII strings the
service applies it to (hex contract addresses): lower-case every character.
Uses core `Char.toLower` (ASCII letters only), applied characterwise. -/
def lowerStr (s : String) : String := ⟨s.data.map Char.toLower⟩

/-- The per-entry effect of `stopWatching`'s loop body on one
`eventWatchers` entry, given the lower-cased address `norm`:
if the set does not contain `norm` the entry is untouched; otherwise the
address is deleted and then (a) set empty with a live subscription → the
subscription is torn down and the entry deleted (`none`); (b) set non-empty
with a live subscription → torn down and re-established via
`setupEventWatcher`, which captures the reduced list; (c) no live
subscription → the shrunken entry is kept as is. -/
def stopEntry (norm : Address) (e : WatcherEntry) : Option WatcherEntry :=
  if norm ∈ e.addresses then
    if e.addresses.erase norm = [] ∧ e.active.isSome then none
    else if e.addresses.erase norm ≠ [] ∧ e.active.isSome then
      some ⟨e.addresses.erase norm, some (e.addresses.erase norm)⟩
    else some ⟨e.addresses.erase norm, e.active⟩
  else some e

/-- The loop of `stopWatching` over `Object.entries(eventWatchers)`. -/
def stopWatchingEW (norm : Address) (w : EventWatchers) : EventWatchers :=
  w.filterMap (fun p => (stopEntry norm p.2).map (fun e => (p.1, e)))

/-- Whether any entry's set contained the lower-cased address (`removed`). -/
def removedAny (norm : Address) (w : EventWatchers) : Bool :=
  w.any (fun p => decide (norm ∈ p.2.addresses))

/-- One chain's subscription state together with the Collection row's
`watching` column for the contract under discussion.  (The source's deletion
of the whole chain key when its last entry disappears is observationally the
empty `watchers` list here.) -/
structure WatchState where
  watchers : EventWatchers
  watching : Bool
deriving DecidableEq, Repr

/-- `stopWatching(address, chain)` for an existing chain, from the revision of
the service embedded in
`src/prisma/migrations/20250304024821_add_revalidation_metrics/migration.sql`:
the supplied address is lower-cased (`address.toLowerCase()`), the loop runs
over every event kind, and — only when something was removed — the Collection's
`watching` flag is persisted to `false` (fire-and-forget `updateMany`, modelled
as applied) and `true` is returned.  The earlier revision in
`src/src/services/contract-event-watcher.ts` is identical except that it does
not touch the `watching` column. -/
def stopWatching (a : Address) (s : WatchState) : Bool × WatchState :=
  if removedAny (lowerStr a) s.watchers
  then (true, ⟨stopWatchingEW (lowerStr a) s.watchers, false⟩)
  else (false, ⟨stopWatchingEW (lowerStr a) s.watchers, s.watching⟩)

/-- `watchContract` at the state level: the address-set manipulation plus, in
the revision embedded in the migration file, the `upsertNft` call that persists
`watching = true` for ERC721/ERC1155 contracts. -/
def watchContractS (t : TokenType) (a : Address) (s : WatchState) : WatchState :=
  ⟨watchContract t a s.watchers, if t = .ERC20 then s.watching else true⟩

/-! ### Association-list lemmas for the subscription registry -/

theorem lookupEW_setEW_self (w : EventWatchers) (et : EventType) (e : WatcherEntry) :
    lookupEW (setEW w et e) et = some e := by
  induction w with
  | nil => simp [setEW, lookupEW]
  | cons p rest ih =>
      obtain ⟨et', e'⟩ := p
      by_cases h : et' = et
      · subst h; simp [setEW, lookupEW]
      · simp [setEW, lookupEW, h, ih]

theorem addAddress_ne_nil (l : List Address) (a : Address) : addAddress l a ≠ [] := by
  unfold addAddress
  split
  · exact List.ne_nil_of_mem (by assumption)
  · simp

/-! ### Claim C2: adding an address to a kind that already has a subscription -/

/-- Claim C2, counterexample: with an active subscription covering `["0xa"]`,
`watchContract` for a second address `"0xb"` leaves the subscription's filter
at `["0xa"]` while the address set becomes `["0xa", "0xb"]` — the filter does
NOT equal the updated address set, contradicting the claimed
unsubscribe-and-resubscribe behaviour. -/
theorem c2_counterexample :
    lookupEW (watchContract .ERC721 "0xb"
        [(.erc721Transfer, ⟨["0xa"], some ["0xa"]⟩)]) .erc721Transfer =
      some ⟨["0xa", "0xb"], some ["0xa"]⟩ ∧
    (["0xa"] : List Address) ≠ ["0xa", "0xb"] := by
  decide

/-- Claim C2, amended: `addContractToEventWatcher` adds the address to the
kind's set, but an already-active subscription is left untouched (it keeps
covering the address list captured when it was established); a subscription
covering the full current set is established only when none was active. -/
theorem c2_amended_add_keeps_subscription (w : EventWatchers) (et : EventType)
    (a : Address) (e : WatcherEntry) (h : lookupEW w et = some e) :
    (∀ l, e.active = some l →
      lookupEW (addContractToEventWatcher w et a) et =
        some ⟨addAddress e.addresses a, some l⟩) ∧
    (e.active = none →
      lookupEW (addContractToEventWatcher w et a) et =
        some ⟨addAddress e.addresses a, some (addAddress e.addresses a)⟩) := by
  constructor
  · intro l hl
    unfold addContractToEventWatcher
    rw [h]
    simp only [Option.getD_some, hl, Option.isSome_some, if_true]
    exact lookupEW_setEW_self w et ⟨addAddress e.addresses a, some l⟩
  · intro hl
    unfold addContractToEventWatcher
    rw [h]
    simp only [Option.getD_some, hl, Option.isSome_none, Bool.false_eq_true, if_false]
    unfold setupEventWatcher
    rw [lookupEW_setEW_self]
    simp only [addAddress_ne_nil, if_false]
    exact lookupEW_setEW_self _ et _

/-- Claim C2, witness for the amended theorem at a concrete state. -/
theorem c2_amended_witness :
    lookupEW [(EventType.erc721Transfer, (⟨["0xa"], some ["0xa"]⟩ : WatcherEntry))]
        .erc721Transfer = some ⟨["0xa"], some ["0xa"]⟩ ∧
    lookupEW (addContractToEventWatcher
        [(EventType.erc721Transfer, ⟨["0xa"], some ["0xa"]⟩)] .erc721Transfer "0xb")
        .erc721Transfer = some ⟨addAddress ["0xa"] "0xb", some ["0xa"]⟩ :=
  ⟨by decide,
   (c2_amended_add_keeps_subscription
      [(EventType.erc721Transfer, ⟨["0xa"], some ["0xa"]⟩)] .erc721Transfer "0xb"
      ⟨["0xa"], some ["0xa"]⟩ (by decide)).1 ["0xa"] rfl⟩

/-! ### Case sensitivity of the address lookup -/

theorem map_eq_self_forall {α : Type} (f : α → α) :
    ∀ l : List α, l.map f = l → ∀ x ∈ l, f x = x := by
  intro l
  induction l with
  | nil => intro _ x hx; exact absurd hx (List.not_mem_nil x)
  | cons a l ih =>
      intro h x hx
      rw [List.map_cons, List.cons.injEq] at h
      rcases List.mem_cons.mp hx with rfl | hx'
      · exact h.1
      · exact ih h.2 x hx'

theorem toLower_ne_of_isUpper (c : Char) (h : c.isUpper = true) :
    Char.toLower c ≠ c := by
  have hb : 65 ≤ c.toNat ∧ c.toNat ≤ 90 := by
    simp only [Char.isUpper, Bool.and_eq_true, decide_eq_true_eq] at h
    exact ⟨UInt32.le_toNat_of_le (by decide) h.1, UInt32.toNat_le_of_le (by decide) h.2⟩
  rw [← Char.ofNat_toNat c]
  obtain ⟨h1, h2⟩ := hb
  generalize c.toNat = n at h1 h2
  interval_cases n <;> decide

theorem lowerStr_ne_self (a : String) (h : ∃ c ∈ a.data, c.isUpper = true) :
    lowerStr a ≠ a := by
  obtain ⟨c, hc, hup⟩ := h
  intro he
  have hdata : a.data.map Char.toLower = a.data := congrArg String.data he
  exact toLower_ne_of_isUpper c hup (map_eq_self_forall _ _ hdata c hc)

theorem stopEntry_of_not_mem (norm : Address) (e : WatcherEntry)
    (h : norm ∉ e.addresses) : stopEntry norm e = some e := by
  unfold stopEntry
  rw [if_neg h]

theorem stopWatchingEW_eq_self (norm : Address) (w : EventWatchers)
    (h : ∀ p ∈ w, norm ∉ p.2.addresses) : stopWatchingEW norm w = w := by
  induction w with
  | nil => rfl
  | cons p rest ih =>
      have hp := stopEntry_of_not_mem norm p.2 (h p (List.mem_cons_self p rest))
      have hr := ih fun q hq => h q (List.mem_cons_of_mem p hq)
      simp only [stopWatchingEW, List.filterMap_cons, hp, Option.map_some'] at hr ⊢
      rw [hr]

theorem removedAny_eq_false (norm : Address) (w : EventWatchers)
    (h : ∀ p ∈ w, norm ∉ p.2.addresses) : removedAny norm w = false := by
  unfold removedAny
  rw [List.any_eq_false]
  intro p hp
  simpa using h p hp

/-! ### Claim C10: watchContract stores verbatim, stopWatching lower-cases -/

theorem watchContract_fresh (t : TokenType) (a : Address) :
    watchContract t a [] = (eventTypesFor t).map (fun et => (et, ⟨[a], some [a]⟩)) := by
  cases t <;> rfl

/-- Claim C10: an address registered via `watchContract` exactly as supplied,
containing at least one upper-case character, cannot be unwatched with the
identical string: `stopWatching` lower-cases it first, the lookup misses,
`false` is returned, and the address stays in every relevant event kind's set
with its subscription still active. -/
theorem c10_case_sensitive_unwatch_misses (t : TokenType) (a : Address)
    (h : ∃ c ∈ a.data, c.isUpper = true) :
    stopWatching a (watchContractS t a ⟨[], false⟩) =
      (false, watchContractS t a ⟨[], false⟩) ∧
    (∀ et ∈ eventTypesFor t,
      lookupEW (watchContractS t a ⟨[], false⟩).watchers et = some ⟨[a], some [a]⟩) := by
  have hne := lowerStr_ne_self a h
  have hmem : ∀ p ∈ (watchContractS t a ⟨[], false⟩).watchers,
      lowerStr a ∉ p.2.addresses := by
    intro p hp
    simp only [watchContractS, watchContract_fresh, List.mem_map] at hp
    obtain ⟨et, _, rfl⟩ := hp
    simp [hne]
  refine ⟨?_, ?_⟩
  · have h1 := removedAny_eq_false _ _ hmem
    have h2 := stopWatchingEW_eq_self _ _ hmem
    simp only [stopWatching, h1, h2, Bool.false_eq_true, if_false]
  · intro et het
    simp only [watchContractS, watchContract_fresh]
    cases t <;> simp only [eventTypesFor] at het <;> fin_cases het <;> rfl

/-- Claim C10, witness at the concrete mixed-case address `"0xAB"`. -/
theorem c10_witness :
    stopWatching "0xAB" (watchContractS .ERC721 "0xAB" ⟨[], false⟩) =
      (false, watchContractS .ERC721 "0xAB" ⟨[], false⟩) ∧
    (∀ et ∈ eventTypesFor .ERC721,
      lookupEW (watchContractS .ERC721 "0xAB" ⟨[], false⟩).watchers et =
        some ⟨["0xAB"], some ["0xAB"]⟩) :=
  c10_case_sensitive_unwatch_misses .ERC721 "0xAB" (by decide)

/-! ### Claim C6: unwatch semantics -/

theorem lookupEW_eq_none_of_not_mem_keys (w : EventWatchers) (et : EventType)
    (h : et ∉ w.map Prod.fst) : lookupEW w et = none := by
  induction w with
  | nil => rfl
  | cons p rest ih =>
      simp only [List.map_cons, List.mem_cons, not_or] at h
      unfold lookupEW
      rw [if_neg (fun he => h.1 he.symm)]
      exact ih h.2

theorem keys_stopWatchingEW_subset (norm : Address) (w : EventWatchers) :
    ∀ x ∈ (stopWatchingEW norm w).map Prod.fst, x ∈ w.map Prod.fst := by
  intro x hx
  simp only [stopWatchingEW, List.map_filterMap, List.mem_filterMap] at hx
  obtain ⟨p, hp, he⟩ := hx
  rcases hq : stopEntry norm p.2 with _ | e'
  · rw [hq] at he; simp at he
  · rw [hq] at he
    simp only [Option.map_some', Option.some.injEq] at he
    rw [← he]
    exact List.mem_map_of_mem Prod.fst hp

theorem stopWatchingEW_lookup (norm : Address) (w : EventWatchers)
    (hkeys : (w.map Prod.fst).Nodup) (et : EventType) (e : WatcherEntry)
    (hin : (et, e) ∈ w) :
    lookupEW (stopWatchingEW norm w) et = stopEntry norm e := by
  induction w with
  | nil => exact absurd hin (List.not_mem_nil _)
  | cons p rest ih =>
      simp only [List.map_cons, List.nodup_cons] at hkeys
      rcases List.mem_cons.mp hin with heq | hrest
      · have hkey : p.1 = et := by rw [← heq]
        have hval : p.2 = e := by rw [← heq]
        subst hkey; subst hval
        unfold stopWatchingEW
        rw [List.filterMap_cons]
        rcases hq : stopEntry norm p.2 with _ | e2
        · simp only [Option.map_none']
          have : p.1 ∉ (stopWatchingEW norm rest).map Prod.fst :=
            fun hc => hkeys.1 (keys_stopWatchingEW_subset norm rest p.1 hc)
          exact lookupEW_eq_none_of_not_mem_keys _ _ this
        · simp only [Option.map_some']
          unfold lookupEW
          rw [if_pos rfl]
      · have hne : p.1 ≠ et := by
          intro hc
          exact hkeys.1 (hc ▸ List.mem_map_of_mem Prod.fst hrest)
        unfold stopWatchingEW
        rw [List.filterMap_cons]
        rcases hq : stopEntry norm p.2 with _ | e2
        · simp only [Option.map_none']
          exact ih hkeys.2 hrest
        · simp only [Option.map_some']
          unfold lookupEW
          rw [if_neg hne]
          exact ih hkeys.2 hrest

theorem stopWatchingEW_not_mem (norm : Address) (w : EventWatchers)
    (hnd : ∀ p ∈ w, p.2.addresses.Nodup) :
    ∀ p ∈ stopWatchingEW norm w, norm ∉ p.2.addresses := by
  intro p' hp'
  simp only [stopWatchingEW, List.mem_filterMap] at hp'
  obtain ⟨p, hp, he⟩ := hp'
  have hnd' := hnd p hp
  unfold stopEntry at he
  by_cases hm : norm ∈ p.2.addresses
  · rw [if_pos hm] at he
    by_cases h1 : p.2.addresses.erase norm = [] ∧ p.2.active.isSome = true
    · rw [if_pos h1] at he; simp at he
    · rw [if_neg h1] at he
      by_cases h2 : p.2.addresses.erase norm ≠ [] ∧ p.2.active.isSome = true
      · rw [if_pos h2] at he
        simp only [Option.map_some', Option.some.injEq] at he
        rw [← he]
        intro hc
        exact absurd ((hnd'.mem_erase_iff).mp hc).1 (by simp)
      · rw [if_neg h2] at he
        simp only [Option.map_some', Option.some.injEq] at he
        rw [← he]
        intro hc
        exact absurd ((hnd'.mem_erase_iff).mp hc).1 (by simp)
  · rw [if_neg hm] at he
    simp only [Option.map_some', Option.some.injEq] at he
    rw [← he]
    exact hm

/-- Claim C6, counterexample: the claim is not true of every watched address.
For the mixed-case address `"0xAB"`, `watchContract` followed immediately by
`stopWatching` with the identical string returns `false`, leaves the
subscription active, and leaves `watching = true` — because `stopWatching`
lower-cases the address before the lookup while `watchContract` stored it
verbatim. -/
theorem c6_counterexample :
    (stopWatching "0xAB" (watchContractS .ERC721 "0xAB" ⟨[], false⟩)).1 = false ∧
    (stopWatching "0xAB" (watchContractS .ERC721 "0xAB" ⟨[], false⟩)).2.watching = true ∧
    lookupEW (stopWatching "0xAB" (watchContractS .ERC721 "0xAB" ⟨[], false⟩)).2.watchers
        .erc721Transfer = some ⟨["0xAB"], some ["0xAB"]⟩ := by
  decide

/-- Claim C6, amended: for every unwatch call, the LOWER-CASED address is
removed from every event kind's set; a kind whose set becomes empty has its
subscription torn down and its entry deleted, a kind whose set stays non-empty
has its subscription re-established covering exactly the reduced list; whenever
anything was removed, `watching = false` is persisted and `true` returned; and
a watch immediately followed by an unwatch of the same ADDRESS EQUAL TO ITS OWN
LOWER-CASING leaves no active subscription and `watching = false`.  (The
original claim, quantifying over all address strings, fails on mixed-case
addresses — see the counterexample.) -/
theorem c6_amended_unwatch (a : Address) (s : WatchState)
    (hnd : ∀ p ∈ s.watchers, p.2.addresses.Nodup)
    (hkeys : (s.watchers.map Prod.fst).Nodup) :
    (∀ p ∈ (stopWatching a s).2.watchers, lowerStr a ∉ p.2.addresses) ∧
    (∀ et e, (et, e) ∈ s.watchers → lowerStr a ∈ e.addresses →
        e.active.isSome = true →
      ((e.addresses.erase (lowerStr a) = [] →
          lookupEW (stopWatching a s).2.watchers et = none) ∧
       (e.addresses.erase (lowerStr a) ≠ [] →
          lookupEW (stopWatching a s).2.watchers et =
            some ⟨e.addresses.erase (lowerStr a),
                  some (e.addresses.erase (lowerStr a))⟩))) ∧
    (removedAny (lowerStr a) s.watchers = true →
      (stopWatching a s).1 = true ∧ (stopWatching a s).2.watching = false) ∧
    (∀ t : TokenType, lowerStr a = a →
      stopWatching a (watchContractS t a ⟨[], false⟩) = (true, ⟨[], false⟩)) := by
  have hw : (stopWatching a s).2.watchers = stopWatchingEW (lowerStr a) s.watchers := by
    unfold stopWatching
    by_cases h : removedAny (lowerStr a) s.watchers = true <;> simp [h]
  refine ⟨?_, ?_, ?_, ?_⟩
  · rw [hw]
    exact stopWatchingEW_not_mem (lowerStr a) s.watchers hnd
  · intro et e hin hmem hact
    rw [hw, stopWatchingEW_lookup (lowerStr a) s.watchers hkeys et e hin]
    unfold stopEntry
    rw [if_pos hmem]
    constructor
    · intro hemp
      rw [if_pos ⟨hemp, hact⟩]
    · intro hne
      rw [if_neg (fun hc => hne hc.1), if_pos ⟨hne, hact⟩]
  · intro hrem
    unfold stopWatching
    rw [if_pos hrem]
    exact ⟨rfl, rfl⟩
  · intro t hlow
    cases t <;>
      simp [stopWatching, removedAny, stopWatchingEW, stopEntry, watchContractS,
        watchContract_fresh, eventTypesFor, hlow]

/-- Claim C6, witness for the amended theorem at a concrete lower-case
address and a populated subscription state. -/
theorem c6_amended_witness :
    ((∀ p ∈ [(EventType.erc721Transfer,
          (⟨["0xaa", "0xbb"], some ["0xaa", "0xbb"]⟩ : WatcherEntry))],
        p.2.addresses.Nodup) ∧
      (([(EventType.erc721Transfer,
          (⟨["0xaa", "0xbb"], some ["0xaa", "0xbb"]⟩ : WatcherEntry))].map
            Prod.fst).Nodup)) ∧
    ((∀ p ∈ (stopWatching "0xaa"
        ⟨[(.erc721Transfer, ⟨["0xaa", "0xbb"], some ["0xaa", "0xbb"]⟩)], true⟩).2.watchers,
        lowerStr "0xaa" ∉ p.2.addresses) ∧
     (removedAny (lowerStr "0xaa")
        [(EventType.erc721Transfer, ⟨["0xaa", "0xbb"], some ["0xaa", "0xbb"]⟩)] = true →
      (stopWatching "0xaa"
        ⟨[(.erc721Transfer, ⟨["0xaa", "0xbb"], some ["0xaa", "0xbb"]⟩)], true⟩).1 = true ∧
      (stopWatching "0xaa"
        ⟨[(.erc721Transfer, ⟨["0xaa", "0xbb"], some ["0xaa", "0xbb"]⟩)], true⟩).2.watching =
        false)) :=
  ⟨⟨by decide, by decide⟩,
   (c6_amended_unwatch "0xaa"
      ⟨[(.erc721Transfer, ⟨["0xaa", "0xbb"], some ["0xaa", "0xbb"]⟩)], true⟩
      (by decide) (by decide)).1,
   (c6_amended_unwatch "0xaa"
      ⟨[(.erc721Transfer, ⟨["0xaa", "0xbb"], some ["0xaa", "0xbb"]⟩)], true⟩
      (by decide) (by decide)).2.2.1⟩

/-! ## Log decoding

The handlers receive `logItem.data` as a `0x`-prefixed hex string and slice it
with JavaScript `String.prototype.slice` before feeding pieces to `BigInt`
(all-or-throw) or `parseInt(…, 16)` (longest valid prefix, `NaN` when the
first character is invalid).  Strings are ASCII here, so a JS string index is
a character index. -/

/-- Numeric value of one hex digit character, or `none`. -/
def hexVal? (c : Char) : Option Nat :=
  if '0' ≤ c ∧ c ≤ '9' then some (c.toNat - 48)
  else if 'a' ≤ c ∧ c ≤ 'f' then some (c.toNat - 87)
  else if 'A' ≤ c ∧ c ≤ 'F' then some (c.toNat - 55)
  else none

/-- Big-endian accumulation of hex digit values. -/
def hexFold (ds : List Nat) : Nat := ds.foldl (fun acc d => acc * 16 + d) 0

/-- `BigInt("0x" + s)`: throws (`none`) on an empty string or any non-hex
character, else the big-endian value. -/
def bigIntHex? (cs : List Char) : Option Nat :=
  if cs = [] then none
  else (cs.mapM hexVal?).map hexFold

/-- `parseInt(s, 16)`: value of the longest hex-digit prefix, `NaN` (`none`)
when it is empty.  Agrees with `bigIntHex?` on all-valid non-empty strings. -/
def parseIntHex? (cs : List Char) : Option Nat :=
  if (cs.takeWhile fun c => (hexVal? c).isSome) = [] then none
  else some (hexFold ((cs.takeWhile fun c => (hexVal? c).isSome).filterMap hexVal?))

/-- JS `slice(a, b)` (with `0 ≤ a ≤ b`) on an ASCII string as a char list. -/
def strSlice (cs : List Char) (a b : Nat) : List Char := (cs.drop a).take (b - a)

/-- The `id` field computed by `handleErc1155TransferSingleLogs`:
`BigInt("0x" + data.slice(2, 66))`, guarded by `data.length >= 66`. -/
def transferSingleId (data : String) : Option Nat :=
  if 66 ≤ data.length then bigIntHex? (strSlice data.data 2 66) else none

/-- The `value` field computed by `handleErc1155TransferSingleLogs`:
`BigInt("0x" + data.slice(66, 130))`, guarded by `data.length >= 130`. -/
def transferSingleValue (data : String) : Option Nat :=
  if 130 ≤ data.length then bigIntHex? (strSlice data.data 66 130) else none

/-- The element loop of `handleErc1155TransferBatchLogs`: for `i` below the
common length, slice a 32-byte id word at byte offset `idsOff + 32 + 32*i` and
a value word at `valsOff + 32 + 32*i` (char offsets are byte offsets doubled),
`BigInt`-decode both, and dispatch the pair to `processErc1155Token`.  The
returned list is the sequence of dispatched pairs; a decode error aborts the
loop, keeping the pairs already dispatched. -/
def batchPairsLoop (data : List Char) (idsOff valsOff : Nat) : Nat → Nat → List (Nat × Nat)
  | _, 0 => []
  | i, k+1 =>
      match bigIntHex? (strSlice data ((idsOff + 32 + i * 32) * 2) ((idsOff + 32 + (i+1) * 32) * 2)),
            bigIntHex? (strSlice data ((valsOff + 32 + i * 32) * 2) ((valsOff + 32 + (i+1) * 32) * 2)) with
      | some tokenId, some v => (tokenId, v) :: batchPairsLoop data idsOff valsOff (i+1) k
      | _, _ => []

/-- Manual ABI decoding of a `TransferBatch` `data` payload, translated from
`handleErc1155TransferBatchLogs` in the later revision of the watcher service
(embedded in
`src/prisma/migrations/20250304024821_add_revalidation_metrics/migration.sql`;
the earlier revision under `src/src/services/contract-event-watcher.ts` only
logs the raw data field): strip `0x`; read two 32-byte head words giving the
byte offsets of the ids and values arrays; at each offset read a 32-byte
length word; when the two lengths agree, read that many 32-byte elements from
each array and emit the pairs in index order; when they differ, emit nothing. -/
def decodeTransferBatchData (dataStr : String) : List (Nat × Nat) :=
  if 2 < dataStr.length then
    match parseIntHex? (strSlice (dataStr.data.drop 2) 0 64),
          parseIntHex? (strSlice (dataStr.data.drop 2) 64 128) with
    | some idsOffset, some valuesOffset =>
      match parseIntHex? (strSlice (dataStr.data.drop 2) (idsOffset * 2) ((idsOffset + 32) * 2)),
            parseIntHex? (strSlice (dataStr.data.drop 2) (valuesOffset * 2) ((valuesOffset + 32) * 2)) with
      | some idsLength, some valuesLength =>
          if idsLength = valuesLength then
            batchPairsLoop (dataStr.data.drop 2) idsOffset valuesOffset 0 idsLength
          else []
      | _, _ => []
    | _, _ => []
  else []

/-! ### Hex encoders (reference encodings for the round-trip statements) -/

/-- Lower-case hex digit character for a value below 16. -/
def hexDigitChar (n : Nat) : Char :=
  if n < 10 then Char.ofNat (48 + n) else Char.ofNat (87 + n)

/-- Base-16 digits of `n`, big-endian, padded to exactly `k` digits. -/
def natDigits : Nat → Nat → List Nat
  | 0, _ => []
  | k+1, n => natDigits k (n / 16) ++ [n % 16]

/-- Fixed-width big-endian hex encoding of `n` with `k` digits. -/
def encWord (k n : Nat) : List Char := (natDigits k n).map hexDigitChar

/-- Two-digit hex encoding of one byte. -/
def byteHex (b : Nat) : List Char := [hexDigitChar (b / 16), hexDigitChar (b % 16)]

/-- A `0x`-prefixed hex string encoding the given bytes. -/
def hexDataOfBytes (bs : List Nat) : String := ⟨'0' :: 'x' :: bs.flatMap byteHex⟩

/-- Unsigned big-endian integer of a byte sequence. -/
def beBytes (bs : List Nat) : Nat := bs.foldl (fun acc b => acc * 256 + b) 0

/-- Standard ABI encoding of `TransferBatch` data for two dynamic `uint256[]`
arrays laid out with head pointers: head words `0x40` and
`0x40 + 0x20 + 0x20·|ids|`, then each array as a length word followed by its
32-byte elements. -/
def batchDigits (ids vals : List Nat) : List Char :=
  encWord 64 64 ++ (encWord 64 (96 + 32 * ids.length) ++
    (encWord 64 ids.length ++ (ids.flatMap (encWord 64) ++
    (encWord 64 vals.length ++ vals.flatMap (encWord 64)))))

def encodeBatchData (ids vals : List Nat) : String :=
  ⟨'0' :: 'x' :: batchDigits ids vals⟩

/-! ### Hex digit and word lemmas -/

theorem hexVal?_hexDigitChar : ∀ d < 16, hexVal? (hexDigitChar d) = some d := by
  decide

theorem natDigits_lt : ∀ (k n : Nat), ∀ d ∈ natDigits k n, d < 16 := by
  intro k
  induction k with
  | zero => intro n d hd; exact absurd hd (List.not_mem_nil d)
  | succ k ih =>
      intro n d hd
      rcases List.mem_append.mp hd with h | h
      · exact ih (n / 16) d h
      · rw [List.mem_singleton.mp h]
        exact Nat.mod_lt n (by omega)

theorem natDigits_length (k n : Nat) : (natDigits k n).length = k := by
  induction k generalizing n with
  | zero => rfl
  | succ k ih => simp [natDigits, ih]

theorem encWord_length (k n : Nat) : (encWord k n).length = k := by
  simp [encWord, natDigits_length]

theorem hexFold_natDigits : ∀ (k n : Nat), n < 16 ^ k → hexFold (natDigits k n) = n := by
  intro k
  induction k with
  | zero => intro n h; interval_cases n; rfl
  | succ k ih =>
      intro n h
      unfold natDigits hexFold
      rw [List.foldl_append]
      have hdiv : n / 16 < 16 ^ k := by
        rw [Nat.div_lt_iff_lt_mul (by omega)]
        calc n < 16 ^ (k+1) := h
        _ = 16 ^ k * 16 := by ring
      have := ih (n / 16) hdiv
      unfold hexFold at this
      rw [this]
      simp only [List.foldl_cons, List.foldl_nil]
      omega

theorem mapM_hexVal_map (ds : List Nat) (h : ∀ d ∈ ds, d < 16) :
    (ds.map hexDigitChar).mapM hexVal? = some ds := by
  induction ds with
  | nil => rfl
  | cons d ds ih =>
      rw [List.map_cons, List.mapM_cons,
        hexVal?_hexDigitChar d (h d (List.mem_cons_self d ds)),
        ih fun x hx => h x (List.mem_cons_of_mem d hx)]
      rfl

theorem filterMap_hexVal_map (ds : List Nat) (h : ∀ d ∈ ds, d < 16) :
    (ds.map hexDigitChar).filterMap hexVal? = ds := by
  induction ds with
  | nil => rfl
  | cons d ds ih =>
      rw [List.map_cons, List.filterMap_cons,
        hexVal?_hexDigitChar d (h d (List.mem_cons_self d ds)),
        ih fun x hx => h x (List.mem_cons_of_mem d hx)]

theorem encWord_all_valid (k n : Nat) : ∀ c ∈ encWord k n, (hexVal? c).isSome = true := by
  intro c hc
  obtain ⟨d, hd, rfl⟩ := List.mem_map.mp hc
  rw [hexVal?_hexDigitChar d (natDigits_lt k n d hd)]
  rfl

theorem encWordMap_ne_nil (k n : Nat) (hk : 0 < k) :
    (natDigits k n).map hexDigitChar ≠ [] := by
  intro hc
  have h1 := congrArg List.length hc
  rw [List.length_map, natDigits_length] at h1
  simp at h1
  omega

theorem bigIntHex?_encWord (k n : Nat) (hk : 0 < k) (hn : n < 16 ^ k) :
    bigIntHex? (encWord k n) = some n := by
  unfold bigIntHex? encWord
  rw [if_neg (encWordMap_ne_nil k n hk), mapM_hexVal_map _ (natDigits_lt k n)]
  rw [Option.map_some', hexFold_natDigits k n hn]

theorem parseIntHex?_encWord (k n : Nat) (hk : 0 < k) (hn : n < 16 ^ k) :
    parseIntHex? (encWord k n) = some n := by
  unfold parseIntHex?
  rw [show List.takeWhile (fun c => (hexVal? c).isSome) (encWord k n) = encWord k n from
    List.takeWhile_eq_self_iff.mpr (encWord_all_valid k n)]
  unfold encWord
  rw [if_neg (encWordMap_ne_nil k n hk),
    filterMap_hexVal_map _ (natDigits_lt k n), hexFold_natDigits k n hn]

/-! ### Byte-level lemmas for the TransferSingle payload -/

theorem byteHex_eq_map (b : Nat) : byteHex b = ([b / 16, b % 16]).map hexDigitChar := rfl

theorem flatMap_byteHex_eq_map (bs : List Nat) :
    bs.flatMap byteHex = (bs.flatMap fun b => [b / 16, b % 16]).map hexDigitChar := by
  induction bs with
  | nil => rfl
  | cons b bs ih => simp [List.flatMap_cons, ih, byteHex_eq_map]

theorem flatMap_byteHex_length (bs : List Nat) :
    (bs.flatMap byteHex).length = 2 * bs.length := by
  induction bs with
  | nil => rfl
  | cons b bs ih => simp [List.flatMap_cons, byteHex, ih]; omega

theorem nibbles_lt (bs : List Nat) (h : ∀ b ∈ bs, b < 256) :
    ∀ d ∈ bs.flatMap fun b => [b / 16, b % 16], d < 16 := by
  intro d hd
  obtain ⟨b, hb, hdb⟩ := List.mem_flatMap.mp hd
  have hblt := h b hb
  rcases List.mem_cons.mp hdb with rfl | hdb'
  · omega
  · rw [List.mem_singleton.mp hdb']
    omega

theorem hexFold_nibbles (bs : List Nat) :
    hexFold (bs.flatMap fun b => [b / 16, b % 16]) = beBytes bs := by
  unfold hexFold beBytes
  suffices h : ∀ acc : Nat,
      (bs.flatMap fun b => [b / 16, b % 16]).foldl (fun acc d => acc * 16 + d) acc =
        bs.foldl (fun acc b => acc * 256 + b) acc from h 0
  induction bs with
  | nil => intro acc; rfl
  | cons b bs ih =>
      intro acc
      simp only [List.flatMap_cons, List.cons_append, List.nil_append,
        List.foldl_cons, List.foldl_append]
      rw [show (acc * 16 + b / 16) * 16 + b % 16 = acc * 256 + b by omega]
      exact ih _

theorem bigIntHex?_flatMap_byteHex (bs : List Nat) (hne : bs ≠ [])
    (h : ∀ b ∈ bs, b < 256) :
    bigIntHex? (bs.flatMap byteHex) = some (beBytes bs) := by
  unfold bigIntHex?
  rw [flatMap_byteHex_eq_map, if_neg, mapM_hexVal_map _ (nibbles_lt bs h),
    Option.map_some', hexFold_nibbles]
  intro hc
  have h1 := congrArg List.length hc
  rw [← flatMap_byteHex_eq_map, flatMap_byteHex_length] at h1
  simp at h1
  exact hne h1

theorem flatMap_byteHex_take (bs : List Nat) :
    ∀ k : Nat, (bs.flatMap byteHex).take (2 * k) = (bs.take k).flatMap byteHex := by
  induction bs with
  | nil => intro k; simp
  | cons b bs ih =>
      intro k
      cases k with
      | zero => simp
      | succ k =>
          simp only [List.flatMap_cons, byteHex, List.cons_append, List.nil_append,
            List.take_succ_cons, Nat.mul_succ]
          rw [ih k]

theorem flatMap_byteHex_drop (bs : List Nat) :
    ∀ k : Nat, (bs.flatMap byteHex).drop (2 * k) = (bs.drop k).flatMap byteHex := by
  induction bs with
  | nil => intro k; simp
  | cons b bs ih =>
      intro k
      cases k with
      | zero => simp
      | succ k =>
          simp only [List.flatMap_cons, byteHex, List.cons_append, List.nil_append,
            List.drop_succ_cons, Nat.mul_succ]
          rw [ih k]

/-! ### Claim C9: TransferSingle decoding -/

/-- Claim C9: for a well-formed 64-byte `TransferSingle` data payload, the
decoded `id` is the unsigned big-endian integer of bytes `[0, 32)` and the
decoded `value` that of bytes `[32, 64)`. -/
theorem c9_transfer_single_decode (bs : List Nat) (h1 : bs.length = 64)
    (h2 : ∀ b ∈ bs, b < 256) :
    transferSingleId (hexDataOfBytes bs) = some (beBytes (bs.take 32)) ∧
    transferSingleValue (hexDataOfBytes bs) = some (beBytes (bs.drop 32)) := by
  have hlen : (hexDataOfBytes bs).length = 130 := by
    show ('0' :: 'x' :: bs.flatMap byteHex).length = 130
    simp only [List.length_cons, flatMap_byteHex_length, h1]
  have hdat : (hexDataOfBytes bs).data = '0' :: 'x' :: bs.flatMap byteHex := rfl
  constructor
  · unfold transferSingleId
    rw [hlen, if_pos (by omega), hdat]
    have hs : strSlice ('0' :: 'x' :: bs.flatMap byteHex) 2 66 =
        (bs.take 32).flatMap byteHex := by
      show ((bs.flatMap byteHex).take 64) = (bs.take 32).flatMap byteHex
      rw [show (64 : Nat) = 2 * 32 from rfl, flatMap_byteHex_take]
    rw [hs]
    refine bigIntHex?_flatMap_byteHex _ ?_ fun b hb => h2 b (List.mem_of_mem_take hb)
    intro hc
    have := congrArg List.length hc
    simp [h1] at this
  · unfold transferSingleValue
    rw [hlen, if_pos (by omega), hdat]
    have hs : strSlice ('0' :: 'x' :: bs.flatMap byteHex) 66 130 =
        (bs.drop 32).flatMap byteHex := by
      show ((bs.flatMap byteHex).drop 64).take 64 = (bs.drop 32).flatMap byteHex
      rw [show (64 : Nat) = 2 * 32 from rfl, flatMap_byteHex_drop]
      refine List.take_of_length_le ?_
      rw [flatMap_byteHex_length]
      simp [h1]
    rw [hs]
    refine bigIntHex?_flatMap_byteHex _ ?_ fun b hb => h2 b (List.mem_of_mem_drop hb)
    intro hc
    have := congrArg List.length hc
    simp [h1] at this

/-- Claim C9, witness: the payload whose bytes are `0,…,0,5` then `0,…,0,9`
decodes to `id = 5`, `value = 9`. -/
theorem c9_witness :
    ((List.replicate 31 0 ++ [5] ++ (List.replicate 31 0 ++ [9]) : List Nat).length = 64 ∧
      ∀ b ∈ (List.replicate 31 0 ++ [5] ++ (List.replicate 31 0 ++ [9]) : List Nat), b < 256) ∧
    transferSingleId (hexDataOfBytes
        (List.replicate 31 0 ++ [5] ++ (List.replicate 31 0 ++ [9]))) =
      some (beBytes ((List.replicate 31 0 ++ [5] ++ (List.replicate 31 0 ++ [9])).take 32)) ∧
    transferSingleValue (hexDataOfBytes
        (List.replicate 31 0 ++ [5] ++ (List.replicate 31 0 ++ [9]))) =
      some (beBytes ((List.replicate 31 0 ++ [5] ++ (List.replicate 31 0 ++ [9])).drop 32)) :=
  ⟨⟨by decide, by decide⟩,
   c9_transfer_single_decode (List.replicate 31 0 ++ [5] ++ (List.replicate 31 0 ++ [9]))
     (by decide) (by decide)⟩

/-! ### Slice extraction lemmas for the TransferBatch payload -/

theorem flatMap_encWord_length (l : List Nat) :
    (l.flatMap (encWord 64)).length = 64 * l.length := by
  induction l with
  | nil => rfl
  | cons x l ih => simp [List.flatMap_cons, encWord_length, ih]; omega

theorem strSlice_extract (pre mid suf : List Char) :
    strSlice (pre ++ (mid ++ suf)) pre.length (pre.length + mid.length) = mid := by
  unfold strSlice
  rw [List.drop_left, Nat.add_sub_cancel_left, List.take_left]

theorem strSlice_extract' (pre mid suf : List Char) (a b : Nat)
    (ha : pre.length = a) (hb : a + mid.length = b) :
    strSlice (pre ++ (mid ++ suf)) a b = mid := by
  subst ha
  subst hb
  exact strSlice_extract pre mid suf

theorem batchPairsLoop_zip (ids vals : List Nat)
    (hi : ∀ x ∈ ids, x < 16 ^ 64) (hv : ∀ x ∈ vals, x < 16 ^ 64) :
    ∀ (idsSuf valsSuf idsPre valsPre : List Nat),
      ids = idsPre ++ idsSuf → vals = valsPre ++ valsSuf →
      idsPre.length = valsPre.length → idsSuf.length = valsSuf.length →
      batchPairsLoop (batchDigits ids vals) 64 (96 + 32 * ids.length)
        idsPre.length idsSuf.length = idsSuf.zip valsSuf := by
  intro idsSuf
  induction idsSuf with
  | nil =>
      intro valsSuf idsPre valsPre h1 h2 h3 h4
      have hv0 : valsSuf = [] := List.eq_nil_of_length_eq_zero (by simpa using h4.symm)
      subst hv0
      rfl
  | cons x xs ih =>
      intro valsSuf idsPre valsPre h1 h2 h3 h4
      cases valsSuf with
      | nil => simp at h4
      | cons y ys =>
          subst h1
          subst h2
          have hxs : xs.length = ys.length := by simpa using h4
          have hx : x < 16 ^ 64 := hi x (by simp)
          have hy : y < 16 ^ 64 := hv y (by simp)
          have hid : bigIntHex? (strSlice (batchDigits (idsPre ++ x :: xs) (valsPre ++ y :: ys))
              ((64 + 32 + idsPre.length * 32) * 2)
              ((64 + 32 + (idsPre.length + 1) * 32) * 2)) = some x := by
            have hD : batchDigits (idsPre ++ x :: xs) (valsPre ++ y :: ys) =
                (encWord 64 64 ++ (encWord 64 (96 + 32 * (idsPre ++ x :: xs).length) ++
                  (encWord 64 (idsPre ++ x :: xs).length ++ idsPre.flatMap (encWord 64)))) ++
                (encWord 64 x ++
                  (xs.flatMap (encWord 64) ++
                    (encWord 64 (valsPre ++ y :: ys).length ++
                      (valsPre ++ y :: ys).flatMap (encWord 64)))) := by
              simp [batchDigits, List.flatMap_append, List.flatMap_cons, List.append_assoc]
            rw [hD, strSlice_extract' _ _ _ _ _
              (by simp only [List.length_append, List.length_cons, encWord_length,
                    flatMap_encWord_length]; omega)
              (by simp only [List.length_append, List.length_cons, encWord_length]; omega)]
            exact bigIntHex?_encWord 64 x (by omega) hx
          have hval : bigIntHex? (strSlice (batchDigits (idsPre ++ x :: xs) (valsPre ++ y :: ys))
              ((96 + 32 * (idsPre ++ x :: xs).length + 32 + idsPre.length * 32) * 2)
              ((96 + 32 * (idsPre ++ x :: xs).length + 32 + (idsPre.length + 1) * 32) * 2)) =
              some y := by
            have hD : batchDigits (idsPre ++ x :: xs) (valsPre ++ y :: ys) =
                (encWord 64 64 ++ (encWord 64 (96 + 32 * (idsPre ++ x :: xs).length) ++
                  (encWord 64 (idsPre ++ x :: xs).length ++
                    ((idsPre ++ x :: xs).flatMap (encWord 64) ++
                      (encWord 64 (valsPre ++ y :: ys).length ++
                        valsPre.flatMap (encWord 64)))))) ++
                (encWord 64 y ++ ys.flatMap (encWord 64)) := by
              simp [batchDigits, List.flatMap_append, List.flatMap_cons, List.append_assoc]
            rw [hD, strSlice_extract' _ _ _ _ _
              (by simp only [List.length_append, List.length_cons, encWord_length,
                    flatMap_encWord_length, h3]; omega)
              (by simp only [List.length_append, List.length_cons, encWord_length]; omega)]
            exact bigIntHex?_encWord 64 y (by omega) hy
          show batchPairsLoop _ 64 _ idsPre.length (xs.length + 1) = _
          rw [batchPairsLoop.eq_2, hid, hval]
          have ihx := ih ys (idsPre ++ [x]) (valsPre ++ [y]) (by simp) (by simp)
            (by simp [h3]) hxs
          simp only [List.length_append, List.length_cons, List.length_nil] at ihx
          show (x, y) :: batchPairsLoop _ 64 _ (idsPre.length + 1) xs.length =
            (x :: xs).zip (y :: ys)
          rw [List.zip_cons_cons]
          exact congrArg ((x, y) :: .) (by simpa using ihx)

theorem strSlice_first (mid suf : List Char) (b : Nat) (hb : mid.length = b) :
    strSlice (mid ++ suf) 0 b = mid := by
  subst hb
  unfold strSlice
  rw [List.drop_zero, Nat.sub_zero, List.take_left]

/-- Claim C5: the TransferBatch handler decodes `data` by head-pointer ABI
layout — two head words give the byte offsets of the ids and values arrays,
each array is a length word followed by that many 32-byte words, and ids and
values are zipped by index.  For every pair of arrays of 32-byte-representable
integers: equal lengths round-trip to exactly the zipped pairs in index order,
and differing lengths make the handler discard the whole event (no pairs). -/
theorem c5_transfer_batch_decode (ids vals : List Nat)
    (hi : ∀ x ∈ ids, x < 16 ^ 64) (hv : ∀ x ∈ vals, x < 16 ^ 64)
    (hn : 96 + 32 * ids.length < 16 ^ 64) (hm : vals.length < 16 ^ 64) :
    (ids.length = vals.length →
      decodeTransferBatchData (encodeBatchData ids vals) = ids.zip vals) ∧
    (ids.length ≠ vals.length →
      decodeTransferBatchData (encodeBatchData ids vals) = []) := by
  have hn' : ids.length < 16 ^ 64 :=
    lt_of_le_of_lt (by omega : ids.length ≤ 96 + 32 * ids.length) hn
  have h64 : (64 : Nat) < 16 ^ 64 := by
    have : (64 : Nat) ≤ 96 + 32 * ids.length := by omega
    omega
  have hdrop : (encodeBatchData ids vals).data.drop 2 = batchDigits ids vals := rfl
  have hlen2 : 2 < (encodeBatchData ids vals).length := by
    show 2 < ('0' :: 'x' :: batchDigits ids vals).length
    simp only [List.length_cons, batchDigits, List.length_append, encWord_length]
    omega
  have p0 : parseIntHex? (strSlice (batchDigits ids vals) 0 64) = some 64 := by
    rw [show strSlice (batchDigits ids vals) 0 64 = encWord 64 64 by
      unfold batchDigits
      exact strSlice_first _ _ _ (encWord_length _ _)]
    exact parseIntHex?_encWord 64 64 (by omega) h64
  have p1 : parseIntHex? (strSlice (batchDigits ids vals) 64 128) =
      some (96 + 32 * ids.length) := by
    rw [show strSlice (batchDigits ids vals) 64 128 =
        encWord 64 (96 + 32 * ids.length) by
      unfold batchDigits
      exact strSlice_extract' _ _ _ _ _ (by simp [encWord_length]) (by simp [encWord_length])]
    exact parseIntHex?_encWord 64 _ (by omega) hn
  have pL1 : parseIntHex? (strSlice (batchDigits ids vals) 128 192) =
      some ids.length := by
    have hD : batchDigits ids vals =
        (encWord 64 64 ++ encWord 64 (96 + 32 * ids.length)) ++
          (encWord 64 ids.length ++
            (ids.flatMap (encWord 64) ++
              (encWord 64 vals.length ++ vals.flatMap (encWord 64)))) := by
      unfold batchDigits
      simp [List.append_assoc]
    rw [hD, strSlice_extract' _ _ _ _ _
      (by simp [encWord_length]) (by simp [encWord_length])]
    exact parseIntHex?_encWord 64 _ (by omega) hn'
  have pL2 : parseIntHex? (strSlice (batchDigits ids vals)
      ((96 + 32 * ids.length) * 2) ((96 + 32 * ids.length + 32) * 2)) =
      some vals.length := by
    have hD : batchDigits ids vals =
        (encWord 64 64 ++ (encWord 64 (96 + 32 * ids.length) ++
          (encWord 64 ids.length ++ ids.flatMap (encWord 64)))) ++
          (encWord 64 vals.length ++ vals.flatMap (encWord 64)) := by
      unfold batchDigits
      simp [List.append_assoc]
    rw [hD, strSlice_extract' _ _ _ _ _
      (by simp only [List.length_append, encWord_length, flatMap_encWord_length]; omega)
      (by simp only [encWord_length]; omega)]
    exact parseIntHex?_encWord 64 _ (by omega) hm
  constructor
  · intro heq
    have hzip := batchPairsLoop_zip ids vals hi hv ids vals [] [] rfl rfl rfl heq
    simp only [List.length_nil] at hzip
    unfold decodeTransferBatchData
    rw [if_pos hlen2]
    simp only [hdrop, p0, p1, pL1, pL2]
    rw [if_pos heq]
    exact hzip
  · intro hne
    unfold decodeTransferBatchData
    rw [if_pos hlen2]
    simp only [hdrop, p0, p1, pL1, pL2]
    rw [if_neg hne]

/-- Claim C5, witness: a synthetic payload with the 3 pairs
`(1,10), (2,20), (3,30)` decodes to exactly those pairs in order, and a
mismatched 2-vs-3 payload decodes to nothing. -/
theorem c5_witness :
    decodeTransferBatchData (encodeBatchData [1, 2, 3] [10, 20, 30]) =
      [(1, 10), (2, 20), (3, 30)] ∧
    decodeTransferBatchData (encodeBatchData [1, 2] [10, 20, 30]) = [] :=
  ⟨((c5_transfer_batch_decode [1, 2, 3] [10, 20, 30]
      (by decide) (by decide) (by decide) (by decide)).1 rfl).trans rfl,
   (c5_transfer_batch_decode [1, 2] [10, 20, 30]
      (by decide) (by decide) (by decide) (by decide)).2 (by decide)⟩

/-! ## Reconciliation engine (ContractService, second revision of
`src/src/services/contract.ts`)

The store is a list of `RevalidationRun` rows threaded explicitly; one
rate-limited `ownerOf(tokenId)` read becomes the oracle `readOk tokenId`
(`false` covers a fulfilled-false processor result as well as a rejected
promise — both are counted as failures by `processBatch`). -/

/-- Status column of a RevalidationRun row. -/
inductive RunStatus
  | inProgress
  | completed
  | failed
deriving DecidableEq, Repr

/-- A RevalidationRun row.  Timestamps and the wall-clock `processingRate` are
not modelled; the columns the claims speak about are. -/
structure RunRow where
  id : Nat
  chainId : Nat
  contractAddress : String
  status : RunStatus
  lastTokenIdProcessed : Option String
  tokensProcessed : Nat
  successCount : Nat
  failureCount : Nat
deriving DecidableEq, Repr

/-- The RevalidationRun table: rows in creation order, the autoincrement
counter, and a fault-injection flag making `revalidationRun.create` return a
falsy result (the store failure the source guards with `if (!newRun) throw`). -/
structure RunStore where
  rows : List RunRow
  nextId : Nat
  createFails : Bool
deriving DecidableEq, Repr

/-- The `findFirst` predicate of `getRevalidationRun`. -/
def inProgressFor (cid : Nat) (addr : String) (r : RunRow) : Prop :=
  r.chainId = cid ∧ r.contractAddress = addr ∧ r.status = .inProgress

instance (cid : Nat) (addr : String) (r : RunRow) : Decidable (inProgressFor cid addr r) :=
  inferInstanceAs (Decidable (_ ∧ _ ∧ _))

/-- `getRevalidationRun(chainId, contractAddress, startTokenId = "0")`:
`findFirst` the `in_progress` row for the key ordered by `createdAt desc`
(rows are in creation order, so that is the last match); return it if found,
otherwise create a fresh `in_progress` row with `lastTokenIdProcessed =
startTokenId` and counter defaults 0 — and throw when creation fails. -/
def getRevalidationRun (s : RunStore) (cid : Nat) (addr : String)
    (startTokenId : String) : Except String (RunRow × RunStore) :=
  match (s.rows.filter fun r => decide (inProgressFor cid addr r)).getLast? with
  | some r => .ok (r, s)
  | none =>
      if s.createFails then
        .error "Failed to create revalidation run"
      else
        let newRun : RunRow :=
          ⟨s.nextId, cid, addr, .inProgress, some startTokenId, 0, 0, 0⟩
        .ok (newRun, ⟨s.rows ++ [newRun], s.nextId + 1, s.createFails⟩)

/-- `updateRevalidationRunStatus`: write the final status on the run row. -/
def finalizeRun (s : RunStore) (runId : Nat) (st : RunStatus) : RunStore :=
  { s with
    rows := s.rows.map fun r => if r.id = runId then { r with status := st } else r }

/-- The exception structure of `revalidate` (second revision, lines
1125-1210): the Prisma availability check and the `nft.findUnique` lookup come
first and return `false` on a missing contract; `getRevalidationRun` is called
OUTSIDE the `try` block, so its thrown error propagates to the caller; the
method phase (abstracted by `methodPhase`, provider errors = `.error`) runs
inside the `try`, whose `catch` finalizes the run as `failed` and returns
`false`. -/
def revalidateE (prismaAvailable contractExists : Bool) (s : RunStore)
    (cid : Nat) (addr : String) (startTokenId : String)
    (methodPhase : Except String Bool) : Except String (Bool × RunStore) :=
  if !prismaAvailable then .ok (false, s)
  else if !contractExists then .ok (false, s)
  else
    match getRevalidationRun s cid addr startTokenId with
    | .error e => .error e
    | .ok (run, s1) =>
        match methodPhase with
        | .ok success =>
            .ok (success, finalizeRun s1 run.id (if success then .completed else .failed))
        | .error _ => .ok (false, finalizeRun s1 run.id .failed)

/-! ### Batch processing (`processBatches` / `processBatch` /
`updateRevalidationProgress`) -/

/-- The progress fields written by `updateRevalidationProgress` after the
batch starting at `lastProcessedId = i`: `lastTokenIdProcessed` is clamped to
`supply - 1`, the counters are the cumulative ones. -/
structure ProgressUpdate where
  lastTokenIdProcessed : String
  tokensProcessed : Nat
  successCount : Nat
  failureCount : Nat
deriving DecidableEq, Repr

def progressUpdate (i supply step sc fc : Nat) : ProgressUpdate :=
  ⟨toString (if i + step - 1 < supply then i + step - 1 else supply - 1),
   sc + fc, sc, fc⟩

/-- The token ids of the batch starting at `i`:
`for (j = 0; j < batchSize && i + j < supply; j++) tokenIds.push(i + j)`. -/
def batchTokens (i supply step : Nat) : List Nat :=
  List.range' i (min step (supply - i))

/-- The batch start indices of `for (let i = startTokenId; i < supply;
i += batchSize)` for a positive batch size. -/
def batchStarts (start supply step : Nat) : List Nat :=
  (List.range ((supply - start + step - 1) / step)).map fun k => start + k * step

/-- The body of `processBatches`, recursing over the batch starts and
carrying the cumulative counters.  Per batch: `batchSuccessCount` is the
number of oracle successes, every other settled token is a failure; the
progress update is written; then — first batch completely failed → return
`false`; later batch completely failed → stop and fall through to the final
`return successCount > 0`; otherwise continue.  Returns (result,
successCount, failureCount, progress updates in write order). -/
def processBatchesAux (readOk : Nat → Bool) (supply start step : Nat) :
    List Nat → Nat → Nat → Bool × Nat × Nat × List ProgressUpdate
  | [], sc, fc => (decide (0 < sc), sc, fc, [])
  | i :: rest, sc, fc =>
      let toks := batchTokens i supply step
      let bsc := toks.countP readOk
      let sc' := sc + bsc
      let fc' := fc + (toks.length - bsc)
      let upd := progressUpdate i supply step sc' fc'
      if i = start ∧ bsc = 0 then (false, sc', fc', [upd])
      else if bsc = 0 then (decide (0 < sc'), sc', fc', [upd])
      else
        let r := processBatchesAux readOk supply start step rest sc' fc'
        (r.1, r.2.1, r.2.2.1, upd :: r.2.2.2)

/-- `processBatches(supply, startTokenId, batchSize, …)`. -/
def processBatches (readOk : Nat → Bool) (supply start step : Nat) :
    Bool × Nat × Nat × List ProgressUpdate :=
  processBatchesAux readOk supply start step (batchStarts start supply step) 0 0

/-- Apply one progress update to the run row (`revalidationRun.update`). -/
def applyUpdate (row : RunRow) (u : ProgressUpdate) : RunRow :=
  { row with
    lastTokenIdProcessed := some u.lastTokenIdProcessed,
    tokensProcessed := u.tokensProcessed,
    successCount := u.successCount,
    failureCount := u.failureCount }

def applyUpdates (row : RunRow) (us : List ProgressUpdate) : RunRow :=
  us.foldl applyUpdate row

/-- `revalidate` for an ERC-721 contract (store available, collection row
present, run row obtained): try `revalidateWithOwnerOf` (batch size 30); on
failure fall back to `revalidateWithTokenByIndex` (batch size 50 — its
per-token processor issues the same `ownerOf` read); finally
`updateRevalidationRunStatus` writes `completed` when the successful method
returned `true`, else `failed`.  Returns the overall result and the final run
row. -/
def revalidateERC721 (readOk : Nat → Bool) (supply start : Nat) (row : RunRow) :
    Bool × RunRow :=
  let m1 := processBatches readOk supply start 30
  if m1.1 then
    (true, { applyUpdates row m1.2.2.2 with status := .completed })
  else
    let m2 := processBatches readOk supply start 50
    (m2.1, { applyUpdates (applyUpdates row m1.2.2.2) m2.2.2.2 with
      status := if m2.1 then .completed else .failed })

/-! ### Claim C1: error scope of revalidate -/

/-- Claim C1, counterexample: with the store reachable and the collection row
present, a run-row creation failure makes `getRevalidationRun` throw, and the
throw happens before `revalidate`'s try block — the error escapes to the
caller instead of a logged `false`. -/
theorem c1_counterexample :
    revalidateE true true ⟨[], 0, true⟩ 1 "0xc" "0" (.ok true) =
      .error "Failed to create revalidation run" := rfl

/-- Claim C1, amended: `revalidate` returns `false` without throwing when the
store is unavailable or the collection row is missing, and it catches any
failure of the revalidation phase itself (provider errors), finalizing the run
as failed and returning `false`; but a failure while obtaining the run row
(before the try block) escapes to the caller.  When run-row creation succeeds
no error escapes. -/
theorem c1_amended_catch_scope (p c : Bool) (s : RunStore) (cid : Nat)
    (addr st : String) (mp : Except String Bool) :
    (p = false → revalidateE p c s cid addr st mp = .ok (false, s)) ∧
    (c = false → p = true → revalidateE p c s cid addr st mp = .ok (false, s)) ∧
    (s.createFails = false → ∃ out, revalidateE p c s cid addr st mp = .ok out) ∧
    (∀ e, mp = .error e → s.createFails = false →
      ∃ s', revalidateE p c s cid addr st mp = .ok (false, s')) := by
  refine ⟨?_, ?_, ?_, ?_⟩
  · intro hp
    subst hp
    rfl
  · intro hc hp
    subst hc
    subst hp
    rfl
  · intro hcf
    cases p with
    | false => exact ⟨(false, s), rfl⟩
    | true =>
        cases c with
        | false => exact ⟨(false, s), rfl⟩
        | true =>
            unfold revalidateE getRevalidationRun
            rcases hl : (s.rows.filter fun r => decide (inProgressFor cid addr r)).getLast?
              with _ | r
            · rw [hcf]
              cases mp with
              | ok b => exact ⟨_, rfl⟩
              | error e => exact ⟨_, rfl⟩
            · cases mp with
              | ok b => exact ⟨_, rfl⟩
              | error e => exact ⟨_, rfl⟩
  · intro e hmp hcf
    subst hmp
    cases p with
    | false => exact ⟨s, rfl⟩
    | true =>
        cases c with
        | false => exact ⟨s, rfl⟩
        | true =>
            unfold revalidateE getRevalidationRun
            rcases hl : (s.rows.filter fun r => decide (inProgressFor cid addr r)).getLast?
              with _ | r
            · rw [hcf]
              exact ⟨_, rfl⟩
            · exact ⟨_, rfl⟩

/-- Claim C1, witness: a provider failure in the method phase is swallowed. -/
theorem c1_amended_witness :
    ∃ s', revalidateE true true ⟨[], 0, false⟩ 1 "0xc" "0" (.error "network") =
      .ok (false, s') :=
  (c1_amended_catch_scope true true ⟨[], 0, false⟩ 1 "0xc" "0"
    (.error "network")).2.2.2 "network" rfl rfl

/-! ### Claim C3: at most one in-progress run per key -/

/-- Number of `in_progress` rows for a (chainId, contractAddress) key. -/
def countInProgress (s : RunStore) (cid : Nat) (addr : String) : Nat :=
  (s.rows.filter fun r => decide (inProgressFor cid addr r)).length

/-- Claim C3: starting from a store with at most one `in_progress` row per
(chainId, contractAddress), `getRevalidationRun` preserves the invariant, and
whenever an `in_progress` row exists it returns exactly that row with the
store unchanged — the call attaches to the same run id, no second row. -/
theorem c3_one_in_progress_attach (s : RunStore) (cid : Nat) (addr st : String)
    (hinv : countInProgress s cid addr ≤ 1) :
    (∀ r s', getRevalidationRun s cid addr st = .ok (r, s') →
      countInProgress s' cid addr ≤ 1) ∧
    (∀ r0 ∈ s.rows, inProgressFor cid addr r0 →
      getRevalidationRun s cid addr st = .ok (r0, s)) := by
  constructor
  · intro r s' h
    unfold getRevalidationRun at h
    rcases hl : (s.rows.filter fun r => decide (inProgressFor cid addr r)).getLast?
      with _ | r1
    · rw [hl] at h
      by_cases hcf : s.createFails = true
      · rw [if_pos hcf] at h
        exact absurd h (by simp)
      · rw [if_neg hcf] at h
        simp only [Except.ok.injEq, Prod.mk.injEq] at h
        rw [← h.2]
        unfold countInProgress
        simp only [List.filter_append]
        rw [List.getLast?_eq_none_iff.mp hl]
        simp [inProgressFor]
    · rw [hl] at h
      simp only [Except.ok.injEq, Prod.mk.injEq] at h
      rw [← h.2]
      exact hinv
  · intro r0 hr0 hp
    have hmem : r0 ∈ s.rows.filter fun r => decide (inProgressFor cid addr r) :=
      List.mem_filter.mpr ⟨hr0, by simpa using hp⟩
    rcases hfil : s.rows.filter fun r => decide (inProgressFor cid addr r)
      with _ | ⟨x, xs⟩
    · rw [hfil] at hmem
      exact absurd hmem (List.not_mem_nil r0)
    · have hxs : xs = [] := by
        unfold countInProgress at hinv
        rw [hfil] at hinv
        simp only [List.length_cons] at hinv
        exact List.eq_nil_of_length_eq_zero (by omega)
      subst hxs
      rw [hfil] at hmem
      have hr : r0 = x := by simpa using hmem
      subst hr
      unfold getRevalidationRun
      rw [hfil]
      rfl

/-- Claim C3, witness: a store holding one `in_progress` row for the key. -/
theorem c3_witness :
    (countInProgress ⟨[⟨7, 1, "0xc", .inProgress, some "0", 0, 0, 0⟩], 8, false⟩ 1 "0xc" ≤ 1) ∧
    getRevalidationRun ⟨[⟨7, 1, "0xc", .inProgress, some "0", 0, 0, 0⟩], 8, false⟩ 1 "0xc" "5" =
      .ok (⟨7, 1, "0xc", .inProgress, some "0", 0, 0, 0⟩,
        ⟨[⟨7, 1, "0xc", .inProgress, some "0", 0, 0, 0⟩], 8, false⟩) :=
  ⟨by decide,
   (c3_one_in_progress_attach ⟨[⟨7, 1, "0xc", .inProgress, some "0", 0, 0, 0⟩], 8, false⟩
      1 "0xc" "5" (by decide)).2 ⟨7, 1, "0xc", .inProgress, some "0", 0, 0, 0⟩
      (by decide) (by decide)⟩

/-! ### Characterization of `processBatches`

`numBatches` counts the iterations of the batch loop; `cumTok`/`cumSucc`/
`cumFail` are the cumulative token/success/failure counts through the first
`k` batches; `stopCount` is the number of batches the loop actually runs
(stopping after the first batch with zero successes). -/

def numBatches (supply start step : Nat) : Nat := (supply - start + step - 1) / step

def cumTok (supply start step k : Nat) : Nat := min (k * step) (supply - start)

def cumSucc (readOk : Nat → Bool) (supply start step k : Nat) : Nat :=
  (List.range' start (cumTok supply start step k)).countP readOk

def cumFail (readOk : Nat → Bool) (supply start step k : Nat) : Nat :=
  cumTok supply start step k - cumSucc readOk supply start step k

def stopCount (readOk : Nat → Bool) (supply start step : Nat) : Nat → Nat → Nat
  | _, 0 => 0
  | k0, m + 1 =>
      if (batchTokens (start + k0 * step) supply step).countP readOk = 0 then 1
      else 1 + stopCount readOk supply start step (k0 + 1) m

theorem lt_numBatches_iff (supply start step k : Nat) (hstep : 0 < step) :
    k < numBatches supply start step ↔ k * step < supply - start := by
  unfold numBatches
  constructor
  · intro h
    have h2 : (k + 1) * step ≤ supply - start + step - 1 :=
      (Nat.le_div_iff_mul_le hstep).mp (by omega)
    rw [Nat.succ_mul] at h2
    omega
  · intro h
    have h2 : (k + 1) * step ≤ supply - start + step - 1 := by
      rw [Nat.succ_mul]
      omega
    have h3 := (Nat.le_div_iff_mul_le hstep).mpr h2
    omega

theorem cumSucc_zero (readOk : Nat → Bool) (supply start step : Nat) :
    cumSucc readOk supply start step 0 = 0 := by
  simp [cumSucc, cumTok]

theorem cumFail_zero (readOk : Nat → Bool) (supply start step : Nat) :
    cumFail readOk supply start step 0 = 0 := by
  simp [cumFail, cumSucc, cumTok]

theorem cumSucc_le_cumTok (readOk : Nat → Bool) (supply start step k : Nat) :
    cumSucc readOk supply start step k ≤ cumTok supply start step k := by
  unfold cumSucc
  calc (List.range' start (cumTok supply start step k)).countP readOk
      ≤ (List.range' start (cumTok supply start step k)).length :=
        List.countP_le_length _
  _ = cumTok supply start step k := List.length_range' _ _ _

theorem cumSucc_succ (readOk : Nat → Bool) (supply start step k : Nat)
    (h : k * step < supply - start) :
    cumSucc readOk supply start step (k + 1) =
      cumSucc readOk supply start step k +
        (batchTokens (start + k * step) supply step).countP readOk := by
  unfold cumSucc cumTok batchTokens
  have h1 : min (k * step) (supply - start) = k * step := by omega
  have h2 : supply - (start + k * step) = supply - start - (k * step) := by omega
  have h3 : min ((k + 1) * step) (supply - start) =
      k * step + min step (supply - start - k * step) := by
    rw [Nat.succ_mul]
    omega
  have h4 := List.range'_append start (k * step) (min step (supply - start - k * step)) 1
  simp only [one_mul] at h4
  rw [h1, h2, h3, show k * step + min step (supply - start - k * step) =
      min step (supply - start - k * step) + k * step by omega, ← h4,
    List.countP_append]

theorem cumFail_succ (readOk : Nat → Bool) (supply start step k : Nat)
    (h : k * step < supply - start) :
    cumFail readOk supply start step (k + 1) =
      cumFail readOk supply start step k +
        ((batchTokens (start + k * step) supply step).length -
          (batchTokens (start + k * step) supply step).countP readOk) := by
  have hs := cumSucc_succ readOk supply start step k h
  have hle := cumSucc_le_cumTok readOk supply start step k
  have hlen : (batchTokens (start + k * step) supply step).length =
      min step (supply - start - k * step) := by
    unfold batchTokens
    rw [List.length_range', show supply - (start + k * step) =
      supply - start - (k * step) by omega]
  have hcle : (batchTokens (start + k * step) supply step).countP readOk ≤
      (batchTokens (start + k * step) supply step).length := List.countP_le_length _
  have ht1 : cumTok supply start step k = k * step := by unfold cumTok; omega
  have ht2 : cumTok supply start step (k + 1) =
      k * step + min step (supply - start - k * step) := by
    unfold cumTok
    rw [Nat.succ_mul]
    omega
  unfold cumFail
  rw [hs, ht1, ht2, hlen]
  rw [ht1] at hle
  omega

theorem processBatchesAux_spec (readOk : Nat → Bool) (supply start step : Nat)
    (hstep : 0 < step) :
    ∀ m k0, k0 + m = numBatches supply start step →
      processBatchesAux readOk supply start step
          ((List.range' k0 m).map fun k => start + k * step)
          (cumSucc readOk supply start step k0) (cumFail readOk supply start step k0) =
        (decide (0 < cumSucc readOk supply start step
            (k0 + stopCount readOk supply start step k0 m)),
         cumSucc readOk supply start step (k0 + stopCount readOk supply start step k0 m),
         cumFail readOk supply start step (k0 + stopCount readOk supply start step k0 m),
         (List.range' k0 (stopCount readOk supply start step k0 m)).map fun k =>
           progressUpdate (start + k * step) supply step
             (cumSucc readOk supply start step (k + 1))
             (cumFail readOk supply start step (k + 1))) := by
  intro m
  induction m with
  | zero =>
      intro k0 hm
      simp [processBatchesAux, stopCount]
  | succ m ih =>
      intro k0 hm
      have hk0 : k0 * step < supply - start :=
        (lt_numBatches_iff supply start step k0 hstep).mp (by omega)
      have hsc := cumSucc_succ readOk supply start step k0 hk0
      have hfc := cumFail_succ readOk supply start step k0 hk0
      rw [List.range'_succ, List.map_cons]
      simp only [processBatchesAux]
      rw [← hsc, ← hfc]
      by_cases hb : (batchTokens (start + k0 * step) supply step).countP readOk = 0
      · have hstop : stopCount readOk supply start step k0 (m + 1) = 1 := by
          unfold stopCount
          rw [if_pos hb]
        by_cases hi : start + k0 * step = start
        · have hk00 : k0 = 0 := by
            rcases Nat.mul_eq_zero.mp (by omega : k0 * step = 0) with h | h
            · exact h
            · omega
          rw [if_pos ⟨hi, hb⟩, hstop]
          have hz : cumSucc readOk supply start step (k0 + 1) = 0 := by
            rw [hsc, hb, hk00, cumSucc_zero]
          simp [List.range'_succ, hz]
        · rw [if_neg (fun hc => hi hc.1), if_pos hb, hstop]
          simp [List.range'_succ]
      · have hstop : stopCount readOk supply start step k0 (m + 1) =
            1 + stopCount readOk supply start step (k0 + 1) m := by
          simp only [stopCount]
          rw [if_neg hb]
        rw [if_neg (fun hc => hb hc.2), if_neg hb]
        rw [ih (k0 + 1) (by omega), hstop]
        have ha : k0 + (1 + stopCount readOk supply start step (k0 + 1) m) =
            k0 + 1 + stopCount readOk supply start step (k0 + 1) m := by omega
        rw [ha]
        have hr : List.range' k0 (1 + stopCount readOk supply start step (k0 + 1) m) =
            k0 :: List.range' (k0 + 1) (stopCount readOk supply start step (k0 + 1) m) := by
          rw [Nat.add_comm 1 _, List.range'_succ]
        rw [hr, List.map_cons]

theorem processBatches_spec (readOk : Nat → Bool) (supply start step : Nat)
    (hstep : 0 < step) :
    processBatches readOk supply start step =
      (decide (0 < cumSucc readOk supply start step
          (stopCount readOk supply start step 0 (numBatches supply start step))),
       cumSucc readOk supply start step
         (stopCount readOk supply start step 0 (numBatches supply start step)),
       cumFail readOk supply start step
         (stopCount readOk supply start step 0 (numBatches supply start step)),
       (List.range' 0 (stopCount readOk supply start step 0 (numBatches supply start step))).map
         fun k => progressUpdate (start + k * step) supply step
           (cumSucc readOk supply start step (k + 1))
           (cumFail readOk supply start step (k + 1))) := by
  unfold processBatches batchStarts
  rw [List.range_eq_range']
  have h := processBatchesAux_spec readOk supply start step hstep
    (numBatches supply start step) 0 (by omega)
  rw [cumSucc_zero, cumFail_zero] at h
  simpa using h

theorem stopCount_le (readOk : Nat → Bool) (supply start step : Nat) :
    ∀ m k0, stopCount readOk supply start step k0 m ≤ m := by
  intro m
  induction m with
  | zero => intro k0; simp [stopCount]
  | succ m ih =>
      intro k0
      simp only [stopCount]
      split
      · omega
      · have := ih (k0 + 1)
        omega

theorem stopCount_pos (readOk : Nat → Bool) (supply start step : Nat)
    (m k0 : Nat) (hm : 0 < m) : 0 < stopCount readOk supply start step k0 m := by
  cases m with
  | zero => omega
  | succ m =>
      simp only [stopCount]
      split <;> omega

theorem cumSucc_mono (readOk : Nat → Bool) (supply start step : Nat)
    {k k' : Nat} (h : k ≤ k') :
    cumSucc readOk supply start step k ≤ cumSucc readOk supply start step k' := by
  unfold cumSucc
  have ha : cumTok supply start step k ≤ cumTok supply start step k' := by
    unfold cumTok
    have := Nat.mul_le_mul_right step h
    omega
  have h4 := List.range'_append start (cumTok supply start step k)
    (cumTok supply start step k' - cumTok supply start step k) 1
  simp only [one_mul] at h4
  rw [show cumTok supply start step k' =
    (cumTok supply start step k' - cumTok supply start step k) +
      cumTok supply start step k by omega, ← h4, List.countP_append]
  omega

theorem stopCount_eq_of (readOk : Nat → Bool) (supply start step : Nat) :
    ∀ t k0 m, t < m →
      (batchTokens (start + (k0 + t) * step) supply step).countP readOk = 0 →
      (∀ j, j < t →
        (batchTokens (start + (k0 + j) * step) supply step).countP readOk ≠ 0) →
      stopCount readOk supply start step k0 m = t + 1 := by
  intro t
  induction t with
  | zero =>
      intro k0 m ht hfail _
      cases m with
      | zero => omega
      | succ m =>
          simp only [stopCount]
          rw [if_pos (by simpa using hfail)]
  | succ t ih =>
      intro k0 m ht hfail hsucc
      cases m with
      | zero => omega
      | succ m =>
          simp only [stopCount]
          rw [if_neg (by simpa using hsucc 0 (by omega))]
          rw [ih (k0 + 1) m (by omega)
            (by rw [show k0 + 1 + t = k0 + (t + 1) by omega]; exact hfail)
            (fun j hj => by
              rw [show k0 + 1 + j = k0 + (j + 1) by omega]
              exact hsucc (j + 1) (by omega))]
          omega

/-! ### Effect of the progress updates on the run row -/

theorem applyUpdates_status : ∀ (us : List ProgressUpdate) (row : RunRow),
    (applyUpdates row us).status = row.status := by
  intro us
  induction us with
  | nil => intro row; rfl
  | cons u us ih => intro row; exact ih (applyUpdate row u)

theorem applyUpdates_successCount : ∀ (us : List ProgressUpdate) (row : RunRow),
    (applyUpdates row us).successCount =
      ((us.getLast?).map ProgressUpdate.successCount).getD row.successCount := by
  intro us
  induction us with
  | nil => intro row; rfl
  | cons u us ih =>
      intro row
      cases us with
      | nil => simp [applyUpdates, applyUpdate]
      | cons v vs =>
          rw [List.getLast?_cons_cons]
          exact ih (applyUpdate row u)

theorem applyUpdates_tokensProcessed : ∀ (us : List ProgressUpdate) (row : RunRow),
    (applyUpdates row us).tokensProcessed =
      ((us.getLast?).map ProgressUpdate.tokensProcessed).getD row.tokensProcessed := by
  intro us
  induction us with
  | nil => intro row; rfl
  | cons u us ih =>
      intro row
      cases us with
      | nil => simp [applyUpdates, applyUpdate]
      | cons v vs =>
          rw [List.getLast?_cons_cons]
          exact ih (applyUpdate row u)

theorem getLast?_range'_zero (s : Nat) (hs : 0 < s) :
    (List.range' 0 s).getLast? = some (s - 1) := by
  rw [List.getLast?_eq_getElem?, List.length_range',
    List.getElem?_range' 0 1 (by omega : s - 1 < s)]
  simp

/-- The last progress update of a `processBatches` call carries the final
cumulative counters. -/
theorem processBatches_last_update (readOk : Nat → Bool) (supply start step : Nat)
    (hstep : 0 < step) (hrun : 0 < numBatches supply start step) :
    ((processBatches readOk supply start step).2.2.2.getLast?).map
        ProgressUpdate.successCount =
      some (processBatches readOk supply start step).2.1 ∧
    ((processBatches readOk supply start step).2.2.2.getLast?).map
        ProgressUpdate.tokensProcessed =
      some ((processBatches readOk supply start step).2.1 +
        (processBatches readOk supply start step).2.2.1) := by
  rw [processBatches_spec readOk supply start step hstep]
  have hs : 0 < stopCount readOk supply start step 0 (numBatches supply start step) :=
    stopCount_pos readOk supply start step _ 0 hrun
  rw [List.getLast?_map, getLast?_range'_zero _ hs]
  have he : stopCount readOk supply start step 0 (numBatches supply start step) - 1 + 1 =
      stopCount readOk supply start step 0 (numBatches supply start step) := by omega
  simp [progressUpdate, he]

/-! ### Claim C7: progress persisted after every batch -/

/-- Claim C7: the k-th progress update of a reconciliation pass writes
`lastTokenIdProcessed = min(batch start + batch size - 1, supply - 1)` (as a
string) and counters that are cumulative over all batches processed so far,
with `tokensProcessed = successCount + failureCount`. -/
theorem c7_progress_updates (readOk : Nat → Bool) (supply start step : Nat)
    (hstep : 0 < step) :
    ∀ k u, (processBatches readOk supply start step).2.2.2[k]? = some u →
      u.lastTokenIdProcessed =
        toString (min (start + k * step + step - 1) (supply - 1)) ∧
      u.successCount = cumSucc readOk supply start step (k + 1) ∧
      u.failureCount = cumFail readOk supply start step (k + 1) ∧
      u.tokensProcessed = u.successCount + u.failureCount := by
  intro k u h
  rw [processBatches_spec readOk supply start step hstep] at h
  simp only [List.getElem?_map] at h
  by_cases hk : k < stopCount readOk supply start step 0 (numBatches supply start step)
  case neg =>
    rw [List.getElem?_eq_none (by rw [List.length_range']; omega)] at h
    simp at h
  case pos =>
    rw [List.getElem?_range' 0 1 hk] at h
    simp only [Nat.zero_add, Nat.one_mul, Option.map_some', Option.some.injEq] at h
    have hkN : k < numBatches supply start step :=
      lt_of_lt_of_le hk (stopCount_le readOk supply start step _ 0)
    have hks : k * step < supply - start :=
      (lt_numBatches_iff supply start step k hstep).mp hkN
    rw [← h]
    refine ⟨?_, rfl, rfl, rfl⟩
    exact congrArg toString (by split <;> omega)

/-- Claim C7, witness: the second batch (k = 1) of a concrete run. -/
theorem c7_witness :
    ((processBatches (fun n => decide (n < 35)) 100 0 30).2.2.2[1]? =
      some ⟨"59", 60, 35, 25⟩) ∧
    ((⟨"59", 60, 35, 25⟩ : ProgressUpdate).lastTokenIdProcessed =
        toString (min (0 + 1 * 30 + 30 - 1) (100 - 1)) ∧
      (⟨"59", 60, 35, 25⟩ : ProgressUpdate).successCount =
        cumSucc (fun n => decide (n < 35)) 100 0 30 2 ∧
      (⟨"59", 60, 35, 25⟩ : ProgressUpdate).failureCount =
        cumFail (fun n => decide (n < 35)) 100 0 30 2 ∧
      (⟨"59", 60, 35, 25⟩ : ProgressUpdate).tokensProcessed =
        (⟨"59", 60, 35, 25⟩ : ProgressUpdate).successCount +
          (⟨"59", 60, 35, 25⟩ : ProgressUpdate).failureCount) :=
  ⟨by decide,
   c7_progress_updates (fun n => decide (n < 35)) 100 0 30 (by decide) 1
     ⟨"59", 60, 35, 25⟩ (by decide)⟩

theorem processBatches_result (readOk : Nat → Bool) (supply start step : Nat)
    (hstep : 0 < step) :
    (processBatches readOk supply start step).1 =
      decide (0 < (processBatches readOk supply start step).2.1) := by
  rw [processBatches_spec readOk supply start step hstep]

/-- A first batch with zero successes: the method returns `false` right after
writing the single progress update counting the whole batch as failures. -/
theorem pb_first_fail (readOk : Nat → Bool) (supply start step : Nat)
    (hstep : 0 < step) (hss : start < supply)
    (hb : (batchTokens start supply step).countP readOk = 0) :
    processBatches readOk supply start step =
      (false, 0, min step (supply - start),
       [progressUpdate start supply step 0 (min step (supply - start))]) := by
  have hS : 0 < supply - start := by omega
  have h0S : 0 * step < supply - start := by simpa using hS
  have hN : 0 < numBatches supply start step :=
    (lt_numBatches_iff supply start step 0 hstep).mpr h0S
  have hstop : stopCount readOk supply start step 0 (numBatches supply start step) = 1 := by
    refine stopCount_eq_of readOk supply start step 0 0 _ hN ?_ ?_
    · simpa using hb
    · intro j hj
      omega
  have hs1 : cumSucc readOk supply start step 1 = 0 := by
    have h := cumSucc_succ readOk supply start step 0 h0S
    simpa [cumSucc_zero, hb] using h
  have hf1 : cumFail readOk supply start step 1 = min step (supply - start) := by
    unfold cumFail
    rw [hs1]
    unfold cumTok
    omega
  rw [processBatches_spec readOk supply start step hstep, hstop]
  simp [List.range'_succ, hs1, hf1]

/-! ### Claim C4: termination rule and final status -/

/-- Claim C4: (a) zero successes in the very first batch make the method fail
immediately, after that one batch; (b) a later batch with zero successes stops
the iteration right there, but the method still reports success because every
earlier batch had at least one success; (c) at the run level, the run
finalizes `completed` iff the final cumulative `successCount` is positive,
else `failed`. -/
theorem c4_termination_rule (readOk : Nat → Bool) (supply start : Nat) (row : RunRow)
    (hrow : row.successCount = 0) :
    (∀ step, 0 < step → start < supply →
      (batchTokens start supply step).countP readOk = 0 →
      (processBatches readOk supply start step).1 = false ∧
      (processBatches readOk supply start step).2.2.2.length = 1) ∧
    (∀ step k, 0 < step → 0 < k → start + k * step < supply →
      (batchTokens (start + k * step) supply step).countP readOk = 0 →
      (∀ j, j < k → (batchTokens (start + j * step) supply step).countP readOk ≠ 0) →
      (processBatches readOk supply start step).1 = true ∧
      (processBatches readOk supply start step).2.2.2.length = k + 1) ∧
    ((revalidateERC721 readOk supply start row).2.status = .completed ↔
      0 < (revalidateERC721 readOk supply start row).2.successCount) := by
  refine ⟨?_, ?_, ?_⟩
  · intro step hstep hss hb
    rw [pb_first_fail readOk supply start step hstep hss hb]
    exact ⟨rfl, rfl⟩
  · intro step k hstep hk hkin hfail hsucc
    have hks : k * step < supply - start := by omega
    have hkN : k < numBatches supply start step :=
      (lt_numBatches_iff supply start step k hstep).mpr hks
    have hstop : stopCount readOk supply start step 0 (numBatches supply start step) =
        k + 1 := by
      refine stopCount_eq_of readOk supply start step k 0 _ hkN ?_ ?_
      · simpa using hfail
      · intro j hj
        simpa using hsucc j hj
    have hstepk : step ≤ k * step := Nat.le_mul_of_pos_left step hk
    have h0S : 0 * step < supply - start := by
      simp only [Nat.zero_mul]
      omega
    have h1 : 0 < cumSucc readOk supply start step 1 := by
      have hcs := cumSucc_succ readOk supply start step 0 h0S
      have hb0 := hsucc 0 hk
      rw [hcs, cumSucc_zero]
      omega
    have h2 : cumSucc readOk supply start step 1 ≤
        cumSucc readOk supply start step (k + 1) :=
      cumSucc_mono readOk supply start step (by omega)
    rw [processBatches_spec readOk supply start step hstep, hstop]
    constructor
    · simp only [decide_eq_true_eq]
      omega
    · simp [List.length_range']
  · unfold revalidateERC721
    by_cases hm1 : (processBatches readOk supply start 30).1 = true
    · rw [if_pos hm1]
      have hres := processBatches_result readOk supply start 30 (by omega)
      rw [hm1] at hres
      have hA1 : 0 < (processBatches readOk supply start 30).2.1 :=
        of_decide_eq_true hres.symm
      have hN30 : 0 < numBatches supply start 30 := by
        by_contra hc
        have hz : numBatches supply start 30 = 0 := by omega
        have hsp := processBatches_spec readOk supply start 30 (by omega)
        rw [hz] at hsp
        simp only [stopCount, cumSucc_zero, cumFail_zero] at hsp
        rw [hsp] at hA1
        simp at hA1
      have hlast := processBatches_last_update readOk supply start 30 (by omega) hN30
      refine ⟨fun _ => ?_, fun _ => rfl⟩
      show 0 < (applyUpdates row (processBatches readOk supply start 30).2.2.2).successCount
      rw [applyUpdates_successCount, hlast.1]
      simpa using hA1
    · rw [if_neg hm1]
      have hres := processBatches_result readOk supply start 50 (by omega)
      by_cases hN50 : 0 < numBatches supply start 50
      · have hlast := processBatches_last_update readOk supply start 50 (by omega) hN50
        have hsc : ({ applyUpdates (applyUpdates row
              (processBatches readOk supply start 30).2.2.2)
              (processBatches readOk supply start 50).2.2.2 with
            status := if (processBatches readOk supply start 50).1 = true
              then RunStatus.completed else RunStatus.failed } : RunRow).successCount =
            (processBatches readOk supply start 50).2.1 := by
          show (applyUpdates (applyUpdates row
              (processBatches readOk supply start 30).2.2.2)
              (processBatches readOk supply start 50).2.2.2).successCount = _
          rw [applyUpdates_successCount, hlast.1]
          rfl
        have hst : ({ applyUpdates (applyUpdates row
              (processBatches readOk supply start 30).2.2.2)
              (processBatches readOk supply start 50).2.2.2 with
            status := if (processBatches readOk supply start 50).1 = true
              then RunStatus.completed else RunStatus.failed } : RunRow).status =
            (if (processBatches readOk supply start 50).1 = true
              then RunStatus.completed else RunStatus.failed) := rfl
        rw [hsc, hst]
        by_cases hb : (processBatches readOk supply start 50).1 = true
        · rw [hb] at hres
          rw [if_pos hb]
          exact ⟨fun _ => of_decide_eq_true hres.symm, fun _ => rfl⟩
        · rw [eq_false_of_ne_true hb] at hres
          rw [if_neg hb]
          constructor
          · intro hc
            exact absurd hc (by simp)
          · intro hc
            have hd : decide (0 < (processBatches readOk supply start 50).2.1) = true :=
              decide_eq_true hc
            rw [← hres] at hd
            exact absurd hd (by simp)
      · have hz50 : numBatches supply start 50 = 0 := by omega
        have hS0 : supply - start = 0 := by
          by_contra hc
          exact hN50 ((lt_numBatches_iff supply start 50 0 (by omega)).mpr (by omega))
        have hz30 : numBatches supply start 30 = 0 := by
          by_contra hc
          have hpos : 0 < numBatches supply start 30 := by omega
          have h2 := (lt_numBatches_iff supply start 30 0 (by omega)).mp hpos
          omega
        have hU2 := processBatches_spec readOk supply start 50 (by omega)
        rw [hz50] at hU2
        simp only [stopCount, cumSucc_zero, cumFail_zero] at hU2
        have hU1 := processBatches_spec readOk supply start 30 (by omega)
        rw [hz30] at hU1
        simp only [stopCount, cumSucc_zero, cumFail_zero] at hU1
        rw [hU1, hU2]
        simp [applyUpdates, hrow]

/-- Claim C4, witness: reads succeed below token 35 (supply 100, batch 30):
batch 2 (tokens 60-89) is the first all-fail batch, so the method stops after
3 batches yet reports success, and the run completes with a positive
successCount. -/
theorem c4_witness :
    ((processBatches (fun n => decide (n < 35)) 100 0 30).1 = true ∧
      (processBatches (fun n => decide (n < 35)) 100 0 30).2.2.2.length = 2 + 1) ∧
    ((revalidateERC721 (fun n => decide (n < 35)) 100 0
        ⟨1, 1, "0xc", .inProgress, some "0", 0, 0, 0⟩).2.status = .completed ↔
      0 < (revalidateERC721 (fun n => decide (n < 35)) 100 0
        ⟨1, 1, "0xc", .inProgress, some "0", 0, 0, 0⟩).2.successCount) :=
  ⟨(c4_termination_rule (fun n => decide (n < 35)) 100 0
      ⟨1, 1, "0xc", .inProgress, some "0", 0, 0, 0⟩ rfl).2.1 30 2
      (by decide) (by decide) (by decide) (by decide) (by decide),
   (c4_termination_rule (fun n => decide (n < 35)) 100 0
      ⟨1, 1, "0xc", .inProgress, some "0", 0, 0, 0⟩ rfl).2.2⟩

/-! ### Claim C8: a run whose first batch fails completely -/

/-- Claim C8, counterexample: reads fail exactly on tokens 0-29 (supply 50).
The run's very first batch (`ownerOf`, size 30) has zero successes, yet the
fallback method's batch of 50 finds successes at tokens 30-49 — the run
finalizes `completed` (not `failed`) with `tokensProcessed = 50` (not 0). -/
theorem c8_counterexample :
    (batchTokens 0 50 30).countP (fun n => decide (30 ≤ n)) = 0 ∧
    (revalidateERC721 (fun n => decide (30 ≤ n)) 50 0
      ⟨1, 1, "0xc", .inProgress, some "0", 0, 0, 0⟩).2.status = .completed ∧
    (revalidateERC721 (fun n => decide (30 ≤ n)) 50 0
      ⟨1, 1, "0xc", .inProgress, some "0", 0, 0, 0⟩).2.tokensProcessed = 50 := by
  decide

/-- Claim C8, amended: when every read in the fallback method's first batch
also fails (all tokens in `[start, start + min 50 (supply-start))`; this
subsumes the primary method's smaller first batch), the run finalizes
`failed` with `successCount = 0` — but with `tokensProcessed` equal to the
number of reads of that batch (the failures are counted), not 0. -/
theorem c8_amended_first_batch_fail (readOk : Nat → Bool) (supply start : Nat)
    (row : RunRow) (hs : start < supply)
    (hfail : ∀ n ∈ batchTokens start supply 50, readOk n = false) :
    (revalidateERC721 readOk supply start row).2.status = .failed ∧
    (revalidateERC721 readOk supply start row).2.successCount = 0 ∧
    (revalidateERC721 readOk supply start row).2.tokensProcessed =
      min 50 (supply - start) := by
  have hb50 : (batchTokens start supply 50).countP readOk = 0 :=
    List.countP_eq_zero.mpr (fun n hn => by simp [hfail n hn])
  have hb30 : (batchTokens start supply 30).countP readOk = 0 := by
    refine List.countP_eq_zero.mpr (fun n hn => ?_)
    have hn50 : n ∈ batchTokens start supply 50 := by
      unfold batchTokens at hn ⊢
      rw [List.mem_range'] at hn ⊢
      obtain ⟨i, hi, rfl⟩ := hn
      exact ⟨i, by omega, rfl⟩
    simp [hfail n hn50]
  have h30 := pb_first_fail readOk supply start 30 (by omega) hs hb30
  have h50 := pb_first_fail readOk supply start 50 (by omega) hs hb50
  unfold revalidateERC721
  rw [h30, h50]
  simp [applyUpdates, applyUpdate, progressUpdate]

/-- Claim C8, witness for the amended theorem: all reads fail, supply 40. -/
theorem c8_amended_witness :
    ((0 : Nat) < 40 ∧
      ∀ n ∈ batchTokens 0 40 50, (fun _ : Nat => false) n = false) ∧
    (revalidateERC721 (fun _ => false) 40 0
      ⟨1, 1, "0xc", .inProgress, some "0", 0, 0, 0⟩).2.status = .failed ∧
    (revalidateERC721 (fun _ => false) 40 0
      ⟨1, 1, "0xc", .inProgress, some "0", 0, 0, 0⟩).2.successCount = 0 ∧
    (revalidateERC721 (fun _ => false) 40 0
      ⟨1, 1, "0xc", .inProgress, some "0", 0, 0, 0⟩).2.tokensProcessed =
      min 50 (40 - 0) :=
  ⟨⟨by decide, by decide⟩,
   c8_amended_first_batch_fail (fun _ => false) 40 0
     ⟨1, 1, "0xc", .inProgress, some "0", 0, 0, 0⟩ (by decide) (by decide)⟩

end TokenIndexer
